import Mathlib

/-!
Verification of the API-logging facility (src/utils/apiLogger.ts and
src/commands/apilogs.ts).

The development shallowly embeds the data model and the operations of the
two source files.  JSON values are modelled by a mutually inductive tree
type; JavaScript mutation (needed to settle frame claims about
`sanitizeData`) is modelled separately by an addressed heap.  External
runtime primitives (JSON.parse, JSON.stringify with indentation,
Date#toLocaleString) are passed as parameters, mirroring their role as
platform collaborators.
-/

set_option maxRecDepth 4000

/- ===================== JSON value model ===================== -/

mutual

/-- JSON-serializable JavaScript values (the domain of `sanitizeData` after
the JSON round trip).  Numbers are modelled by integers. -/
inductive Json where
  | null : Json
  | bool : Bool → Json
  | num : Int → Json
  | str : String → Json
  | arr : JsonList → Json
  | obj : JsonKvs → Json

/-- List of JSON values (array elements, in order). -/
inductive JsonList where
  | nil : JsonList
  | cons : Json → JsonList → JsonList

/-- Key-value fields of a JSON object, in insertion order. -/
inductive JsonKvs where
  | nil : JsonKvs
  | cons : String → Json → JsonKvs → JsonKvs

end

/-- JavaScript truthiness on JSON values: `null`, `false`, `0` and the empty
string are falsy (`NaN` and `undefined` are not representable as `Json`;
`undefined` is modelled by `Option.none` where it can occur). -/
def jsFalsy : Json → Bool
  | .null => true
  | .bool b => !b
  | .num n => n == 0
  | .str s => s == ""
  | .arr _ => false
  | .obj _ => false

/-- Truthiness of a possibly-undefined value (`none` models `undefined`). -/
def truthyOpt : Option Json → Bool
  | none => false
  | some j => !jsFalsy j

/-- Check `typeof x === 'object' && x !== null` for a JSON value: true
exactly for arrays and objects. -/
def isObjectJson : Json → Bool
  | .arr _ => true
  | .obj _ => true
  | _ => false

/-- Property read `x[k]` on a JSON value: field lookup on objects (first
occurrence), `undefined` (`none`) on everything else. -/
def jget (j : Json) (k : String) : Option Json :=
  match j with
  | .obj kvs => jgetKvs kvs k
  | _ => none
where
  /-- Lookup of a key in an object's field list. -/
  jgetKvs : JsonKvs → String → Option Json
  | .nil, _ => none
  | .cons k' v rest, k => if k' == k then some v else jgetKvs rest k

/-- Keys of an object's field list, in order (models `Object.keys`). -/
def keysOf : JsonKvs → List String
  | .nil => []
  | .cons k _ rest => k :: keysOf rest

/-- Build an object's field list from a list of string pairs (used for
header maps such as `Object.fromEntries(headers.entries())`). -/
def kvsOfPairs : List (String × String) → JsonKvs
  | [] => .nil
  | (k, v) :: rest => .cons k (.str v) (kvsOfPairs rest)

/- ===================== Sanitizer (apiLogger.ts lines 36-73) ===================== -/

/-- The fixed redaction marker from apiLogger.ts line 58. -/
def redactionMarker : String := "***REDACTED***"

/-- The case-sensitive sensitive-key set from apiLogger.ts lines 49-57. -/
def sensitiveKey (k : String) : Bool :=
  k == "api_key" ||
  k == "apiKey" ||
  k == "authorization" ||
  k == "Authorization" ||
  k == "token" ||
  k == "password" ||
  k == "key"

/-- Check whether a value is the redaction marker string. -/
def isMarker : Json → Bool
  | .str s => s == redactionMarker
  | _ => false

mutual

/-- Deep copy of a JSON value; this is what
`JSON.parse(JSON.stringify(data))` produces for a JSON-serializable value
(apiLogger.ts line 41).  On trees it is the identity, proved below. -/
def deepCopy : Json → Json
  | .null => .null
  | .bool b => .bool b
  | .num n => .num n
  | .str s => .str s
  | .arr xs => .arr (deepCopyList xs)
  | .obj kvs => .obj (deepCopyKvs kvs)

/-- Deep copy of array elements. -/
def deepCopyList : JsonList → JsonList
  | .nil => .nil
  | .cons x xs => .cons (deepCopy x) (deepCopyList xs)

/-- Deep copy of object fields. -/
def deepCopyKvs : JsonKvs → JsonKvs
  | .nil => .nil
  | .cons k v rest => .cons k (deepCopy v) (deepCopyKvs rest)

end

mutual

/-- Functional reading of `sanitizeObject` (apiLogger.ts lines 44-65) on a
JSON tree: on an object, walk its keys; on an array, walk its elements
(`Object.keys` of an array yields the index strings "0", "1", ..., none of
which is in the sensitive set, and object-typed elements are recursed
into); on anything else do nothing. -/
def sanitizeObject : Json → Json
  | .obj kvs => .obj (sanitizeObjectKvs kvs)
  | .arr xs => .arr (sanitizeObjectList xs)
  | j => j

/-- Array elements: no index string is a sensitive key, so each element is
recursed into when it is object-typed (line 61-63) and left alone
otherwise. -/
def sanitizeObjectList : JsonList → JsonList
  | .nil => .nil
  | .cons x xs =>
    .cons (if isObjectJson x then sanitizeObject x else x) (sanitizeObjectList xs)

/-- Object fields: a sensitive key's value is replaced by the marker
(line 58); otherwise the value is recursed into when object-typed
(lines 61-63) and left alone otherwise. -/
def sanitizeObjectKvs : JsonKvs → JsonKvs
  | .nil => .nil
  | .cons k v rest =>
    if sensitiveKey k then .cons k (Json.str redactionMarker) (sanitizeObjectKvs rest)
    else .cons k (if isObjectJson v then sanitizeObject v else v) (sanitizeObjectKvs rest)

end

/-- The sanitizer (apiLogger.ts lines 36-73) restricted to
JSON-serializable values: the falsy early return of line 37, then the JSON
round-trip deep copy of line 41 followed by the recursive redaction of
line 67.  On trees the round trip always succeeds, so the catch branch of
line 71 is unreachable here; the failure path is modelled exactly by
`sanitizeDataHeap` below. -/
def sanitizeData (data : Json) : Json :=
  if jsFalsy data then data
  else sanitizeObject (deepCopy data)

/-- The sanitizer on a possibly-undefined argument: `undefined` is falsy,
so `if (!data) return data` returns it unchanged (line 37). -/
def sanitizeDataOpt : Option Json → Option Json
  | none => none
  | some d => some (sanitizeData d)

/- ===================== Predicates for claim C1 ===================== -/

mutual

/-- No key anywhere in the value (through objects and arrays) is in the
sensitive set. -/
def noSensJson : Json → Bool
  | .obj kvs => noSensKvs kvs
  | .arr xs => noSensList xs
  | _ => true

/-- No sensitive key anywhere in any array element. -/
def noSensList : JsonList → Bool
  | .nil => true
  | .cons x xs => noSensJson x && noSensList xs

/-- No sensitive key in this field list nor below it. -/
def noSensKvs : JsonKvs → Bool
  | .nil => true
  | .cons k v rest => !sensitiveKey k && noSensJson v && noSensKvs rest

end

mutual

/-- Every sensitive key reachable through object/array traversal holds the
redaction marker. -/
def allRedJson : Json → Bool
  | .obj kvs => allRedKvs kvs
  | .arr xs => allRedList xs
  | _ => true

/-- Every sensitive key below any array element holds the marker. -/
def allRedList : JsonList → Bool
  | .nil => true
  | .cons x xs => allRedJson x && allRedList xs

/-- Every sensitive key in this field list holds the marker, and every
non-sensitive field is recursively redacted. -/
def allRedKvs : JsonKvs → Bool
  | .nil => true
  | .cons k v rest =>
    (if sensitiveKey k then isMarker v else allRedJson v) && allRedKvs rest

end

/- ===================== Heap model of JavaScript values ===================== -/

/-- Primitive JavaScript values stored inline (strings, numbers, booleans,
null).  `undefined` is modelled by `Option.none` at use sites. -/
inductive Prim where
  | pnull : Prim
  | pbool : Bool → Prim
  | pnum : Int → Prim
  | pstr : String → Prim

/-- A JavaScript value: a primitive, or a reference to a heap-allocated
object/array.  References model JavaScript object identity, which is what
the mutation in `sanitizeObject` acts on. -/
inductive Val where
  | prim : Prim → Val
  | ref : Nat → Val

/-- A heap node: an object (ordered fields) or an array (ordered
elements). -/
inductive Node where
  | nObj : List (String × Val) → Node
  | nArr : List Val → Node

/-- The heap: addresses are list indices, allocation appends. -/
abbrev Heap := List Node

/-- Read the node at an address. -/
def heapGet : Heap → Nat → Option Node
  | [], _ => none
  | nd :: _, 0 => some nd
  | _ :: t, a + 1 => heapGet t a

/-- Overwrite the node at an address (no-op when out of range). -/
def heapSet : Heap → Nat → Node → Heap
  | [], _, _ => []
  | _ :: t, 0, nd => nd :: t
  | hd :: t, a + 1, nd => hd :: heapSet t a nd

/-- JavaScript falsiness of a value (`!data`): `null`, `false`, `0` and
`''` are falsy; every object/array reference is truthy. -/
def jsFalsyV : Val → Bool
  | .prim .pnull => true
  | .prim (.pbool false) => true
  | .prim (.pnum 0) => true
  | .prim (.pstr "") => true
  | _ => false

/-- Check `typeof data === 'object'`: true for references and for `null`
(whose typeof is 'object' in JavaScript). -/
def typeofObjectV : Val → Bool
  | .ref _ => true
  | .prim .pnull => true
  | _ => false

/-- Check `typeof x === 'object' && x !== null` (apiLogger.ts line 61):
true exactly for references. -/
def isObjRefV : Val → Bool
  | .ref _ => true
  | _ => false

/-- Read object fields into a JSON field list with the given value
reader. -/
def readFieldsWith (readv : Val → Option Json) : List (String × Val) → Option JsonKvs
  | [] => some .nil
  | (k, v) :: rest =>
    match readv v, readFieldsWith readv rest with
    | some j, some kvs => some (.cons k j kvs)
    | _, _ => none

/-- Read array elements into a JSON list with the given value reader. -/
def readElemsWith (readv : Val → Option Json) : List Val → Option JsonList
  | [] => some .nil
  | v :: rest =>
    match readv v, readElemsWith readv rest with
    | some j, some xs => some (.cons j xs)
    | _, _ => none

/-- Read the value graph rooted at a value into a JSON tree, with fuel
bounding the reference-chain depth.  With fuel `h.length + 1` this models
`JSON.stringify`: it succeeds on every acyclic reachable graph (whose
reference chains cannot exceed the node count without repeating a node)
and returns `none` exactly when a cycle is reachable, modelling the
TypeError thrown on circular structures. -/
def readVal : Nat → Heap → Val → Option Json
  | _, _, .prim .pnull => some .null
  | _, _, .prim (.pbool b) => some (.bool b)
  | _, _, .prim (.pnum n) => some (.num n)
  | _, _, .prim (.pstr s) => some (.str s)
  | 0, _, .ref _ => none
  | fuel + 1, h, .ref a =>
    match heapGet h a with
    | none => none
    | some (.nObj fields) => (readFieldsWith (readVal fuel h) fields).map Json.obj
    | some (.nArr elems) => (readElemsWith (readVal fuel h) elems).map Json.arr

/-- Model of `JSON.stringify(data)`: `none` models the TypeError raised on
circular structures (apiLogger.ts line 41 inside the try of line 39). -/
def stringifyHeap (h : Heap) (v : Val) : Option Json :=
  readVal (h.length + 1) h v

mutual

/-- Model of `JSON.parse` of a serialized tree: allocates a fresh node for
every object/array in the tree, bottom-up, and returns the root value.
All fresh nodes live at addresses at or above the original heap length. -/
def allocVal : Heap → Json → Heap × Val
  | h, .null => (h, .prim .pnull)
  | h, .bool b => (h, .prim (.pbool b))
  | h, .num n => (h, .prim (.pnum n))
  | h, .str s => (h, .prim (.pstr s))
  | h, .arr xs =>
    match allocElems h xs with
    | (h1, vs) => (h1 ++ [Node.nArr vs], .ref h1.length)
  | h, .obj kvs =>
    match allocFields h kvs with
    | (h1, fvs) => (h1 ++ [Node.nObj fvs], .ref h1.length)

/-- Allocate array elements left to right. -/
def allocElems : Heap → JsonList → Heap × List Val
  | h, .nil => (h, [])
  | h, .cons x xs =>
    match allocVal h x with
    | (h1, v) =>
      match allocElems h1 xs with
      | (h2, vs) => (h2, v :: vs)

/-- Allocate object fields left to right. -/
def allocFields : Heap → JsonKvs → Heap × List (String × Val)
  | h, .nil => (h, [])
  | h, .cons k x rest =>
    match allocVal h x with
    | (h1, v) =>
      match allocFields h1 rest with
      | (h2, fvs) => (h2, (k, v) :: fvs)

end

/-- Field lookup `obj[k]` on an object's field list. -/
def lookupField : List (String × Val) → String → Option Val
  | [], _ => none
  | (k', v) :: rest, k => if k' == k then some v else lookupField rest k

/-- Field assignment `obj[k] = v` on an object's field list (keys of
`JSON.parse` output are unique, so replacing every occurrence coincides
with the JavaScript single-slot update). -/
def setFieldList : List (String × Val) → String → Val → List (String × Val)
  | [], _, _ => []
  | (k', v') :: rest, k, v =>
    if k' == k then (k', v) :: setFieldList rest k v
    else (k', v') :: setFieldList rest k v

/-- Property read `obj[k]` through the heap. -/
def getField (h : Heap) (a : Nat) (k : String) : Option Val :=
  match heapGet h a with
  | some (.nObj fields) => lookupField fields k
  | _ => none

/-- Property write `obj[k] = v` through the heap (no-op on non-objects,
which the source never does). -/
def setField (h : Heap) (a : Nat) (k : String) (v : Val) : Heap :=
  match heapGet h a with
  | some (.nObj fields) => heapSet h a (.nObj (setFieldList fields k v))
  | _ => h

mutual

/-- In-place `sanitizeObject` (apiLogger.ts lines 44-65) on the heap:
primitives are ignored (line 45); for an object node, iterate over the
`Object.keys` snapshot, redacting sensitive keys in place (line 58) and
recursing into object-typed field values re-read at iteration time
(lines 61-63); for an array node, recurse into object-typed elements (the
index keys are never sensitive, and array slots are never written by the
sanitizer, so the element snapshot stays live).  Fuel bounds recursion
depth; the caller passes more fuel than the copy's depth. -/
def sanitizeValHeap : Nat → Heap → Val → Heap
  | 0, h, _ => h
  | _ + 1, h, .prim _ => h
  | fuel + 1, h, .ref a =>
    match heapGet h a with
    | none => h
    | some (.nObj fields) => sanFieldsHeap fuel h a (fields.map Prod.fst)
    | some (.nArr elems) => sanElemsHeap fuel h elems
termination_by fuel _ _ => (fuel, 0)

/-- Iterate the key snapshot of the object at address `a`. -/
def sanFieldsHeap : Nat → Heap → Nat → List String → Heap
  | _, h, _, [] => h
  | fuel, h, a, k :: rest =>
    if sensitiveKey k then
      sanFieldsHeap fuel (setField h a k (.prim (.pstr redactionMarker))) a rest
    else
      match getField h a k with
      | some v =>
        if isObjRefV v then sanFieldsHeap fuel (sanitizeValHeap fuel h v) a rest
        else sanFieldsHeap fuel h a rest
      | none => sanFieldsHeap fuel h a rest
termination_by fuel _ _ ks => (fuel, ks.length + 1)

/-- Iterate the element snapshot of the array node. -/
def sanElemsHeap : Nat → Heap → List Val → Heap
  | _, h, [] => h
  | fuel, h, v :: rest =>
    if isObjRefV v then sanElemsHeap fuel (sanitizeValHeap fuel h v) rest
    else sanElemsHeap fuel h rest
termination_by fuel _ vs => (fuel, vs.length + 1)

end

/-- The placeholder returned when sanitization is impossible
(apiLogger.ts line 71). -/
def placeholderNode : Node :=
  .nObj [("sanitized", .prim (.pstr "[Object could not be safely sanitized]"))]

/-- Full `sanitizeData` (apiLogger.ts lines 36-73) over the heap model:
falsy early return (line 37, with `none` modelling `undefined`), JSON
round-trip deep copy into fresh addresses (line 41), in-place
sanitization of the copy (line 67), and the catch branch returning the
placeholder for object-typed data and the data itself otherwise
(lines 69-72). -/
def sanitizeDataHeap (h : Heap) (data : Option Val) : Heap × Option Val :=
  match data with
  | none => (h, none)
  | some v =>
    if jsFalsyV v then (h, some v)
    else
      match stringifyHeap h v with
      | some t =>
        match allocVal h t with
        | (h1, copy) => (sanitizeValHeap (h1.length + 1) h1 copy, some copy)
      | none =>
        if typeofObjectV v then (h ++ [placeholderNode], some (.ref h.length))
        else (h, some v)

/-- Reference lower bound: every reference in the value points at or above
address `n`. -/
def valGE (n : Nat) : Val → Prop
  | .prim _ => True
  | .ref a => n ≤ a

/-- Every reference stored in the node points at or above `n`. -/
def nodeGE (n : Nat) : Node → Prop
  | .nObj fields => ∀ kv ∈ fields, valGE n kv.2
  | .nArr elems => ∀ v ∈ elems, valGE n v

/-- Every node stored at or above `n` only references addresses at or
above `n` (the freshly allocated region is closed under references). -/
def heapGEfrom (n : Nat) (h : Heap) : Prop :=
  ∀ a nd, n ≤ a → heapGet h a = some nd → nodeGE n nd

/- ===================== URL model and service classification ===================== -/

/-- Contiguous-infix check on character lists. -/
def charsInfix (needle : List Char) : List Char → Bool
  | [] => needle.isEmpty
  | c :: rest => needle.isPrefixOf (c :: rest) || charsInfix needle rest

/-- Model of JavaScript `s.includes(sub)`: substring containment. -/
def jsIncludes (s sub : String) : Bool :=
  charsInfix sub.data s.data

/-- Skip everything up to and including the first `://`. -/
def afterSchemeSep : List Char → Option (List Char)
  | [] => none
  | ':' :: '/' :: '/' :: rest => some rest
  | _ :: rest => afterSchemeSep rest

/-- ASCII lowercasing of a string (JavaScript lowercases URL hostnames). -/
def lowerAscii (s : String) : String :=
  String.mk (s.data.map Char.toLower)

/-- Model of the WHATWG `new URL` platform primitive, restricted to
well-formed absolute URLs of shape
`scheme://host[:port][/path][?query][#fragment]` (the shape every URL in
the source and the claims has): returns the lowercased hostname and the
`pathname + search` string; `none` models the TypeError `new URL` raises
when the scheme separator is missing or the host is empty. -/
def parseUrlParts (url : String) : Option (String × String) :=
  match afterSchemeSep url.data with
  | none => none
  | some rest =>
    let hostport := rest.takeWhile (fun c => !(c == '/' || c == '?' || c == '#'))
    let host := hostport.takeWhile (fun c => !(c == ':'))
    if host.isEmpty then none
    else
      let tail := (rest.drop hostport.length).takeWhile (fun c => !(c == '#'))
      let pathQuery : List Char :=
        match tail with
        | [] => ['/']
        | '?' :: _ => '/' :: tail
        | _ => tail
      some (lowerAscii (String.mk host), String.mk pathQuery)

/-- The hostname-substring service chain of `getServiceFromUrl`
(apiLogger.ts lines 213-227), checked in source order with the first match
winning. -/
def getServiceFromHostname (hostname : String) : String :=
  if jsIncludes hostname "anthropic.com" || jsIncludes hostname "claude" then "anthropic"
  else if jsIncludes hostname "openai.com" || jsIncludes hostname "oai" then "openai"
  else if jsIncludes hostname "anthropic-bedrock" then "anthropic-bedrock"
  else if jsIncludes hostname "vertex-ai" then "anthropic-vertex"
  else if jsIncludes hostname "amazonaws.com" then "aws"
  else if jsIncludes hostname "google" then "google"
  else "unknown"

/-- `getServiceFromUrl` (apiLogger.ts lines 209-228): parse the URL, take
its hostname, and classify; `none` models the exception propagated when
`new URL` throws on an invalid URL. -/
def getServiceFromUrl (url : String) : Option String :=
  (parseUrlParts url).map (fun p => getServiceFromHostname p.1)

/- ===================== Log writer (apiLogger.ts lines 76-120) ===================== -/

/-- A platform `Response` as the interceptor observes it: its status, its
header entries, and the outcome of reading its body text through a clone
(`none` models the read throwing, line 172). -/
structure Resp where
  status : Int
  headersList : List (String × String)
  bodyTextRead : Option String

/-- A thrown JavaScript value: an `Error` instance (with message and
possibly-absent stack) or an arbitrary other value (`value none` models
`throw undefined`). -/
inductive Thrown where
  | errObj : String → Option String → Thrown
  | value : Option Json → Thrown

/-- Truthiness of a thrown value (`error ?`, line 111): `Error` objects are
truthy; other values by JavaScript falsiness. -/
def truthyThrown : Thrown → Bool
  | .errObj _ _ => true
  | .value none => false
  | .value (some j) => !jsFalsy j

/-- The logged error field for a truthy thrown value (line 111):
`{message, stack}` for an `Error` (an absent stack is dropped by
serialization), the raw value otherwise. -/
def thrownToJson : Thrown → Json
  | .errObj m (some s) => .obj (.cons "message" (.str m) (.cons "stack" (.str s) .nil))
  | .errObj m none => .obj (.cons "message" (.str m) .nil)
  | .value (some j) => j
  | .value none => .null

/-- The destructured parameters of `logApiCall` (lines 76-98).  `none`
models an absent (`undefined`) optional argument; `statusCode` is kept as
a JSON value since `withApiLogging` feeds it from an arbitrary result
field. -/
structure LogApiArgs where
  url : Json
  method : Json
  headers : Option Json
  body : Option Json
  response : Option Resp
  responseBody : Option Json
  statusCode : Option Json
  error : Option Thrown
  durationMs : Int
  service : String

/-- The persisted log entry (lines 100-113). -/
structure LogEntry where
  timestamp : String
  id : String
  service : String
  url : Json
  method : Json
  headers : Option Json
  body : Option Json
  responseHeaders : Option (List (String × String))
  responseBody : Option Json
  statusCode : Option Json
  error : Option Json
  durationMs : Int

/-- JavaScript `x || y` on possibly-undefined JSON values. -/
def orJsonOpt (a b : Option Json) : Option Json :=
  if truthyOpt a then a else b

/-- The log-entry object literal of lines 100-113.  The entry's
`timestamp` (`new Date().toISOString()`) and `id` (`randomUUID()`) are
parameters, coming from the platform clock and RNG. -/
def mkLogEntry (ts uuid : String) (a : LogApiArgs) : LogEntry :=
  { timestamp := ts
    id := uuid
    service := a.service
    url := a.url
    method := a.method
    headers := sanitizeDataOpt a.headers
    body := sanitizeDataOpt a.body
    responseHeaders := a.response.map (fun r => r.headersList)
    responseBody := if truthyOpt a.responseBody then sanitizeDataOpt a.responseBody else none
    statusCode := orJsonOpt a.statusCode (a.response.map (fun r => Json.num r.status))
    error :=
      match a.error with
      | none => none
      | some t => if truthyThrown t then some (thrownToJson t) else none
    durationMs := a.durationMs }

/-- Prepend a field only when its value is defined (models
`JSON.stringify` omitting `undefined`-valued fields). -/
def optKv (k : String) (v : Option Json) (rest : JsonKvs) : JsonKvs :=
  match v with
  | some j => .cons k j rest
  | none => rest

/-- The JSON object written for an entry (one `JSON.stringify(logEntry)`
line, read back by `JSON.parse`): the literal's fields in source order,
with `undefined` fields omitted. -/
def entryToJson (e : LogEntry) : Json :=
  .obj (
    .cons "timestamp" (.str e.timestamp) (
    .cons "id" (.str e.id) (
    .cons "service" (.str e.service) (
    .cons "url" e.url (
    .cons "method" e.method (
    optKv "headers" e.headers (
    optKv "body" e.body (
    optKv "responseHeaders" (e.responseHeaders.map (fun l => Json.obj (kvsOfPairs l))) (
    optKv "responseBody" e.responseBody (
    optKv "statusCode" e.statusCode (
    optKv "error" e.error (
    .cons "durationMs" (.num e.durationMs) .nil))))))))))))

/-- Outcomes of the fallible platform operations `logApiCall` performs:
`mkdirSync` (only reached when the directory is missing), entry
serialization, and `appendFileSync`.  A `some` holds the message of the
error that call would throw. -/
structure FsEnv where
  dirExists : Bool
  mkdirErr : Option String
  stringifyErr : Option String
  appendErr : Option String

/-- What `logApiCall` leaves behind: the appended line, if any, and the
`console.error` diagnostic, if any. -/
structure LogOutcome where
  appended : Option String
  consoleError : Option String

/-- The body of `logApiCall` without its catch (lines 100-116):
`getApiLogFilePath` ensures the logs directory exists (`mkdirSync` may
throw), the entry is built and serialized (`JSON.stringify` may throw, for
example on a circular `error` value), then the line is appended
(`appendFileSync` may throw).  The first failure aborts the rest, like an
exception would. -/
def logApiCallTry (env : FsEnv) (stringify : Json → String) (ts uuid : String)
    (a : LogApiArgs) : Except String String :=
  match (if env.dirExists then none else env.mkdirErr) with
  | some e => .error e
  | none =>
    match env.stringifyErr with
    | some e => .error e
    | none =>
      match env.appendErr with
      | some e => .error e
      | none => .ok (stringify (entryToJson (mkLogEntry ts uuid a)) ++ "\n")

/-- `logApiCall` (lines 76-120): the whole body runs inside try/catch; a
caught failure is reported through `console.error` only (line 118) and
nothing is appended; the function itself always returns normally. -/
def logApiCall (env : FsEnv) (stringify : Json → String) (ts uuid : String)
    (a : LogApiArgs) : LogOutcome :=
  match logApiCallTry env stringify ts uuid a with
  | .ok line => ⟨some line, none⟩
  | .error e => ⟨none, some e⟩

/- ===================== Call interceptor (apiLogger.ts lines 122-206) ===================== -/

/-- The request as the interceptor observes it after
`new Request(input, init)`: URL, method, normalized header entries, and
the body-read outcome — `none`: the request has no body (line 136 guard);
`some none`: the clone/text read threw (line 147); `some (some t)`: the
body text is `t`. -/
structure FetchReq where
  url : String
  method : String
  headers : List (String × String)
  bodyText : Option (Option String)

/-- Request body capture (lines 135-150): an absent body stays
`undefined`; a failed read — or a failed `JSON.parse` of JSON-looking
text, thrown inside the same try — becomes the fixed placeholder;
JSON-looking nonempty text (starting with a brace or bracket) is parsed
with the platform parser; other text is kept raw. -/
def requestBodyVal (parse : String → Option Json) : Option (Option String) → Option Json
  | none => none
  | some none => some (.str "[Could not read request body]")
  | some (some t) =>
    if (t != "") && (t.startsWith "\x7b" || t.startsWith "[") then
      match parse t with
      | some j => some j
      | none => some (.str "[Could not read request body]")
    else some (.str t)

/-- Response body capture (lines 163-174), same shape with the response
placeholder. -/
def responseBodyVal (parse : String → Option Json) : Option String → Option Json
  | none => some (.str "[Could not read response body]")
  | some t =>
    if (t != "") && (t.startsWith "\x7b" || t.startsWith "[") then
      match parse t with
      | some j => some j
      | none => some (.str "[Could not read response body]")
    else some (.str t)

/-- `loggedFetch` (lines 126-206) as a function of the observed request,
the platform JSON parser, the `originalFetch` outcome, the measured
duration and the entry's timestamp/id: the outcome is passed through
unchanged (the response returned at line 188, or the error re-thrown at
line 204), and exactly one log entry is constructed per invocation — the
success entry of lines 177-186 or the failure entry of lines 193-202
(which passes the still-undefined `response` and no `responseBody`).  The
durable write of the entry is `logApiCall`, modelled separately.
(`response.clone()` on a fresh response cannot throw, so the try block of
lines 156-188 fails exactly when `originalFetch` throws, and a
`Request`'s URL always parses, so `getServiceFromUrl` cannot throw
here.) -/
def loggedFetch (parse : String → Option Json) (req : FetchReq)
    (outcome : Except Thrown Resp) (ts uuid : String) (durationMs : Int) :
    Except Thrown Resp × List LogEntry :=
  let headers : Option Json := some (.obj (kvsOfPairs req.headers))
  let body := requestBodyVal parse req.bodyText
  let service : String :=
    match getServiceFromUrl req.url with
    | some s => s
    | none => "unknown"
  match outcome with
  | .ok response =>
    (.ok response,
      [mkLogEntry ts uuid
        { url := .str req.url
          method := .str req.method
          headers := headers
          body := body
          response := some response
          responseBody := responseBodyVal parse response.bodyTextRead
          statusCode := none
          error := none
          durationMs := durationMs
          service := service }])
  | .error e =>
    (.error e,
      [mkLogEntry ts uuid
        { url := .str req.url
          method := .str req.method
          headers := headers
          body := body
          response := none
          responseBody := none
          statusCode := none
          error := some e
          durationMs := durationMs
          service := service }])

/- ===================== Generic call wrapper (apiLogger.ts lines 259-361) ===================== -/

/-- Request details extracted from the wrapped call's arguments
(lines 302-329). -/
structure ReqDetails where
  url : Option Json
  method : Option Json
  headers : Option Json
  body : Option Json

/-- An argument of the wrapped call: a platform `Request` instance, or a
plain JSON value. -/
inductive JSArg where
  | reqObj : String → String → List (String × String) → Option Json → JSArg
  | plain : Json → JSArg

/-- `extractRequestDetails` (lines 302-329): scan the arguments for the
first truthy object that is a `Request` instance or exposes truthy `url`
and `method` properties; other arguments are skipped. -/
def extractRequestDetails : List JSArg → Option ReqDetails
  | [] => none
  | .reqObj u m hs b :: _ =>
    some ⟨some (.str u), some (.str m), some (.obj (kvsOfPairs hs)), b⟩
  | .plain j :: rest =>
    if isObjectJson j then
      if truthyOpt (jget j "url") && truthyOpt (jget j "method") then
        some ⟨jget j "url", jget j "method", jget j "headers", jget j "body"⟩
      else extractRequestDetails rest
    else extractRequestDetails rest

/-- Response details extracted from the wrapped call's result
(lines 332-361). -/
structure RespDetails where
  response : Option Resp
  status : Option Json
  body : Option Json

/-- The wrapped call's awaited result: a platform `Response`, an object
whose `response` field is a `Response` (with its own `body` field), or a
plain JSON value. -/
inductive FnResult where
  | respObj : Resp → FnResult
  | withResponse : Resp → Option Json → FnResult
  | plain : Json → FnResult

/-- `extractResponseDetails` (lines 332-361): a `Response` result gives
`{response, status}`; a result carrying a `Response` in its `response`
field gives `{response, status, body}`; a plain value with a defined
`status` field gives `{status, body: data || body}`; anything else gives
nothing. -/
def extractResponseDetails : FnResult → Option RespDetails
  | .respObj r => some ⟨some r, some (.num r.status), none⟩
  | .withResponse r b => some ⟨some r, some (.num r.status), b⟩
  | .plain j =>
    match jget j "status" with
    | some s => some ⟨none, some s, orJsonOpt (jget j "data") (jget j "body")⟩
    | none => none

/-- Truthiness of the wrapped call's result (`result ?`, line 282). -/
def truthyFnResult : FnResult → Bool
  | .respObj _ => true
  | .withResponse _ _ => true
  | .plain j => !jsFalsy j

/-- JavaScript `x || d` with a definite default. -/
def jsOrDefault (a : Option Json) (d : Json) : Json :=
  if truthyOpt a then a.getD d else d

/-- `withApiLogging` (lines 259-299) as a function of the wrapped call's
outcome (`.ok none` models a call resolving to `undefined`): the result is
returned — or the thrown value re-thrown — unchanged (lines 269-273), and
the `finally` block (lines 274-297) builds exactly one log entry per
invocation from the heuristically extracted request/response details. -/
def withApiLogging (serviceName : String) (args : List JSArg)
    (outcome : Except Thrown (Option FnResult)) (ts uuid : String) (durationMs : Int) :
    Except Thrown (Option FnResult) × List LogEntry :=
  let result : Option FnResult :=
    match outcome with
    | .ok r => r
    | .error _ => none
  let error : Option Thrown :=
    match outcome with
    | .ok _ => none
    | .error e => some e
  let requestDetails := extractRequestDetails args
  let responseDetails : Option RespDetails :=
    match result with
    | some fr => if truthyFnResult fr then extractResponseDetails fr else none
    | none => none
  (outcome,
    [mkLogEntry ts uuid
      { url := jsOrDefault (requestDetails.bind (fun d => d.url)) (.str "unknown")
        method := jsOrDefault (requestDetails.bind (fun d => d.method)) (.str "unknown")
        headers := requestDetails.bind (fun d => d.headers)
        body := requestDetails.bind (fun d => d.body)
        response := responseDetails.bind (fun d => d.response)
        responseBody := responseDetails.bind (fun d => d.body)
        statusCode := responseDetails.bind (fun d => d.status)
        error := error
        durationMs := durationMs
        service := serviceName }])

/- ===================== Log formatter (apilogs.ts lines 198-303) ===================== -/

mutual

/-- JavaScript string coercion as template literals apply it, approximated
for the values the claims exercise: primitives print canonically, arrays
join their coerced elements with commas (null elements print empty), and
plain objects print as `[object Object]`. -/
def jsToString : Json → String
  | .null => "null"
  | .bool true => "true"
  | .bool false => "false"
  | .num n => toString n
  | .str s => s
  | .arr xs => jsToStringArr xs
  | .obj _ => "[object Object]"

/-- Array elements joined with commas for string coercion. -/
def jsToStringArr : JsonList → String
  | .nil => ""
  | .cons x .nil => (match x with | .null => "" | x' => jsToString x')
  | .cons x rest =>
    (match x with | .null => "" | x' => jsToString x') ++ "," ++ jsToStringArr rest

end

/-- Length of an object's field list. -/
def kvsLength : JsonKvs → Nat
  | .nil => 0
  | .cons _ _ rest => 1 + kvsLength rest

/-- Length of a JSON array. -/
def jsonListLength : JsonList → Nat
  | .nil => 0
  | .cons _ rest => 1 + jsonListLength rest

/-- `Object.keys(x).length` for a truthy value: field count for objects,
element count for arrays, character count for strings, zero for other
primitives. -/
def keysCount : Json → Nat
  | .obj kvs => kvsLength kvs
  | .arr xs => jsonListLength xs
  | .str s => s.length
  | _ => 0

/-- Full-string decimal integer reading for JavaScript `ToNumber` on
strings: a trimmed empty string is `0`, an optionally signed digit string
is its value, anything else is `NaN` (`none`).  (Fractional, exponent and
hex forms are not exercised by any claim.) -/
def digitsAll (cs : List Char) : Option Nat :=
  if cs ≠ [] ∧ cs.all Char.isDigit then
    some (cs.foldl (fun acc c => 10 * acc + (c.toNat - 48)) 0)
  else none

/-- JavaScript `ToNumber` on a string, restricted as described in
`digitsAll`. -/
def strToNumber (s : String) : Option Int :=
  let cs := ((s.data.dropWhile Char.isWhitespace).reverse.dropWhile Char.isWhitespace).reverse
  match cs with
  | [] => some 0
  | '-' :: rest => (digitsAll rest).map (fun n => -(n : Int))
  | '+' :: rest => (digitsAll rest).map (fun n => (n : Int))
  | rest => (digitsAll rest).map (fun n => (n : Int))

/-- JavaScript numeric coercion for the relational comparisons on the
status value (`none` is `NaN`, making every comparison false). -/
def jsNumOf : Json → Option Int
  | .num n => some n
  | .bool true => some 1
  | .bool false => some 0
  | .null => some 0
  | .str s => strToNumber s
  | .arr _ => none
  | .obj _ => none

/-- A colored fragment of formatter output: the chalk styles applied (in
nesting order) and the text. -/
structure Seg where
  style : List String
  text : String

/-- External platform primitives the formatter uses:
`new Date(x).toLocaleString()` and `JSON.stringify(x, null, 2)`. -/
structure FmtExt where
  toLocale : Json → String
  stringifyPretty : Json → String

/-- Formatter result: the `entry.raw` value returned verbatim (line 200),
or the built-up sequence of colored fragments. -/
inductive FmtOut where
  | rawOut : Json → FmtOut
  | segs : List Seg → FmtOut

/-- The `.replace(/\n/g, '\n  ')` indentation applied to pretty-printed
payloads. -/
def indent2 (s : String) : String :=
  s.replace "\n" "\n  "

/-- ASCII uppercasing (JavaScript `toUpperCase` on method names). -/
def upperAscii (s : String) : String :=
  String.mk (s.data.map Char.toUpper)

/-- `getMethodColor` (apilogs.ts lines 279-294). -/
def getMethodColor (m : String) : String :=
  let u := upperAscii m
  if u == "GET" then "green"
  else if u == "POST" then "blue"
  else if u == "PUT" then "yellow"
  else if u == "DELETE" then "red"
  else if u == "PATCH" then "magenta"
  else "white"

/-- `getUrlPath` (apilogs.ts lines 296-303): pathname plus search of the
parsed URL, or the raw string when `new URL` throws. -/
def getUrlPath (url : String) : String :=
  match parseUrlParts url with
  | some p => p.2
  | none => url

/-- Body text rendering (lines 231-233 and 261-263): strings raw,
structured values pretty-printed. -/
def fmtBodyText (ext : FmtExt) (b : Json) : String :=
  match b with
  | .str s => s
  | _ => ext.stringifyPretty b

/-- Timestamp fragment (lines 206-208). -/
def fmtTimestamp (ext : FmtExt) (entry : Json) : List Seg :=
  match jget entry "timestamp" with
  | some t => if !jsFalsy t then [⟨["gray"], "[" ++ ext.toLocale t ++ "] "⟩] else []
  | none => []

/-- Service fragment (lines 211-213). -/
def fmtService (entry : Json) : List Seg :=
  match jget entry "service" with
  | some s => if !jsFalsy s then [⟨["bold", "blue"], jsToString s ++ " "⟩] else []
  | none => []

/-- Request fragment (lines 216-236): method and path, then headers and
body when present and nonempty. -/
def fmtRequest (ext : FmtExt) (entry : Json) : List Seg :=
  match jget entry "request" with
  | none => []
  | some r =>
    if !jsFalsy r then
      let method := jsToString (jsOrDefault (jget r "method") (.str "UNKNOWN"))
      let url := jsToString (jsOrDefault (jget r "url") (.str ""))
      [⟨["bold", getMethodColor method], method⟩,
       ⟨["bold"], " " ++ getUrlPath url ++ "\n"⟩]
      ++ (match jget r "headers" with
        | some hs =>
          if (!jsFalsy hs) && (keysCount hs != 0) then
            [⟨["gray"], "  Headers: "⟩, ⟨["gray"], indent2 (ext.stringifyPretty hs)⟩,
             ⟨[], "\n"⟩]
          else []
        | none => [])
      ++ (match jget r "body" with
        | some b =>
          if !jsFalsy b then
            [⟨["gray"], "  Body: "⟩, ⟨["gray"], indent2 (fmtBodyText ext b)⟩, ⟨[], "\n"⟩]
          else []
        | none => [])
    else []

/-- Response fragment (lines 239-266): status with threshold-based
severity (4xx yellow, 5xx red, everything else — including NaN — the
default green), response time when present, and the response body. -/
def fmtResponse (ext : FmtExt) (entry : Json) : List Seg :=
  match jget entry "response" with
  | none => []
  | some resp =>
    if !jsFalsy resp then
      let status := jsOrDefault (jget resp "status") (.num 0)
      let statusColor :=
        match jsNumOf status with
        | some n => if 400 ≤ n ∧ n < 500 then "yellow" else if 500 ≤ n then "red" else "green"
        | none => "green"
      [⟨[statusColor], "  Response: " ++ jsToString status⟩]
      ++ (match jget entry "responseTime" with
        | some rt => if !jsFalsy rt then [⟨["gray"], " (" ++ jsToString rt ++ "ms)"⟩] else []
        | none => [])
      ++ [⟨[], "\n"⟩]
      ++ (match jget resp "body" with
        | some b =>
          if !jsFalsy b then
            [⟨["gray"], "  Body: "⟩, ⟨["gray"], indent2 (fmtBodyText ext b)⟩]
          else []
        | none => [])
    else []

/-- Error fragment (lines 269-274): `error.message || error`, then the
stack when present. -/
def fmtError (entry : Json) : List Seg :=
  match jget entry "error" with
  | none => []
  | some e =>
    if !jsFalsy e then
      [⟨["red"], "  Error: " ++ jsToString (jsOrDefault (jget e "message") e) ++ "\n"⟩]
      ++ (match jget e "stack" with
        | some st => if !jsFalsy st then [⟨["gray"], "  Stack: " ++ jsToString st⟩] else []
        | none => [])
    else []

/-- `formatAndDisplayLogEntry` (apilogs.ts lines 198-277): a truthy
`entry.raw` is returned verbatim; otherwise the fragments are emitted in
fixed order — timestamp, service, request, response, error. -/
def formatAndDisplayLogEntry (ext : FmtExt) (entry : Json) : FmtOut :=
  if truthyOpt (jget entry "raw") then .rawOut ((jget entry "raw").getD .null)
  else
    .segs (fmtTimestamp ext entry ++ fmtService entry ++ fmtRequest ext entry
      ++ fmtResponse ext entry ++ fmtError entry)

/- ===================== Log reader (apilogs.ts lines 150-196) ===================== -/

/-- Split a character list at every occurrence of the separator (what
JavaScript `split` does, including empty groups). -/
def splitOnChar (sep : Char) : List Char → List (List Char)
  | [] => [[]]
  | c :: rest =>
    let r := splitOnChar sep rest
    if c == sep then [] :: r
    else
      match r with
      | [] => [[c]]
      | g :: gs => (c :: g) :: gs

/-- `fileContent.split('\n')` (apilogs.ts line 169). -/
def jsSplitNewline (s : String) : List String :=
  (splitOnChar '\n' s.data).map String.mk

/-- One read-back record (lines 169-175): `JSON.parse` of the line on
success, the `(raw: line)` fallback object when parsing throws. -/
def parseLogLine (parse : String → Option Json) (line : String) : Json :=
  match parse line with
  | some j => j
  | none => .obj (.cons "raw" (.str line) .nil)

/-- The entry decoding of `viewLogFile` (lines 168-175): split the file
text on newlines, drop empty lines (`filter(Boolean)`), and decode each
remaining line in order. -/
def readEntries (parse : String → Option Json) (content : String) : List Json :=
  ((jsSplitNewline content).filter (fun l => l != "")).map (parseLogLine parse)

/- ===================== Inspection command (apilogs.ts lines 14-45, 51-85, 183-186) ===================== -/

/-- Longest decimal-digit prefix value (`NaN` when there is none). -/
def digitsPrefixVal (cs : List Char) : Option Nat :=
  let ds := cs.takeWhile Char.isDigit
  if ds.isEmpty then none
  else some (ds.foldl (fun acc c => 10 * acc + (c.toNat - 48)) 0)

/-- Hexadecimal digit test. -/
def isHexDigit (c : Char) : Bool :=
  c.isDigit || ('a' ≤ c && c ≤ 'f') || ('A' ≤ c && c ≤ 'F')

/-- Hexadecimal digit value. -/
def hexDigitVal (c : Char) : Nat :=
  if c.isDigit then c.toNat - 48
  else if 'a' ≤ c ∧ c ≤ 'f' then c.toNat - 87
  else c.toNat - 55

/-- Longest hexadecimal-digit prefix value (`NaN` when there is none). -/
def hexPrefixVal (cs : List Char) : Option Nat :=
  let ds := cs.takeWhile isHexDigit
  if ds.isEmpty then none
  else some (ds.foldl (fun acc c => 16 * acc + hexDigitVal c) 0)

/-- Digit scan after the optional sign: radix auto-detection takes hex
after a `0x`/`0X` prefix, decimal otherwise. -/
def parseIntDigits : List Char → Option Nat
  | '0' :: c :: rest =>
    if c == 'x' || c == 'X' then hexPrefixVal rest
    else digitsPrefixVal ('0' :: c :: rest)
  | cs => digitsPrefixVal cs

/-- Model of JavaScript `parseInt(s)`: skip leading whitespace, optional
sign, then the longest digit prefix; `none` models `NaN` when no digit
follows. -/
def jsParseInt (s : String) : Option Int :=
  match s.data.dropWhile Char.isWhitespace with
  | '-' :: rest => (parseIntDigits rest).map (fun n => -(n : Int))
  | '+' :: rest => (parseIntDigits rest).map (fun n => (n : Int))
  | rest => (parseIntDigits rest).map (fun n => (n : Int))

/-- The `numLines > 0` guard (apilogs.ts line 184) on a possibly-NaN
number: every comparison against `NaN` is false. -/
def jsGtZero : Option Int → Bool
  | none => false
  | some n => decide (0 < n)

/-- `logEntries.slice(-n)` for positive `n`: the last `n` entries (all of
them when `n` is at least the length). -/
def sliceLastN (l : List Json) (n : Int) : List Json :=
  l.drop (l.length - n.toNat)

/-- The slicing step of `viewLogFile` (lines 183-186): the last `n`
entries when `numLines > 0`, everything otherwise — in particular when
`numLines` is `NaN` or zero. -/
def entriesToShow (numLines : Option Int) (logEntries : List Json) : List Json :=
  if jsGtZero numLines then
    match numLines with
    | some n => sliceLastN logEntries n
    | none => logEntries
  else logEntries

/-- The `tail [n]` argument step (apilogs.ts line 21):
`params[0] ? parseInt(params[0]) : 20`; after the `filter(Boolean)` of
line 15 no empty parameter survives, so presence implies truthiness. -/
def tailNumLines (params : List String) : Option Int :=
  match params.get? 0 with
  | some p => jsParseInt p
  | none => some 20

/-- The `view <file> [n]` argument step (apilogs.ts line 31):
`params[1] ? parseInt(params[1]) : 0`. -/
def viewNumLines (params : List String) : Option Int :=
  match params.get? 1 with
  | some p => jsParseInt p
  | none => some 0

/-- Recognized log extensions (apilogs.ts line 70):
`file.endsWith('.log') || file.endsWith('.jsonl')`. -/
def isLogExt (f : String) : Bool :=
  (".log".data.isSuffixOf f.data) || (".jsonl".data.isSuffixOf f.data)

/-- The deletion loop of `clearLogs` (apilogs.ts lines 66-74): walk the
directory listing; each log-extension file is unlinked (counted) until an
`unlinkSync` error aborts the loop — the failing file and everything after
it survive; other files always survive.  Returns the surviving files, the
deleted count, and the aborting error if any. -/
def clearDelete (unlinkErr : String → Option String) :
    List String → List String × Nat × Option String
  | [] => ([], 0, none)
  | f :: rest =>
    if isLogExt f then
      match unlinkErr f with
      | some e => (f :: rest, 0, some e)
      | none =>
        match clearDelete unlinkErr rest with
        | (surv, c, err) => (surv, c + 1, err)
    else
      match clearDelete unlinkErr rest with
      | (surv, c, err) => (f :: surv, c, err)

/-- The directory state and platform failure modes `clearLogs` can
observe. -/
structure ClearEnv where
  files : List String
  readdirErr : Option String
  unlinkErr : String → Option String

/-- `clearLogs` (apilogs.ts lines 51-85) as a function of the confirmation
answer: only an answer lowercasing to `y` enters the deletion branch; any
other answer resolves the cancellation message with the directory
untouched; `readdirSync`/`unlinkSync` errors are caught and reported in
the resolved message, never propagated (chalk coloring abstracted away).
Returns the directory contents after the call and the resolved message. -/
def clearLogs (answer : String) (env : ClearEnv) : List String × String :=
  if lowerAscii answer == "y" then
    match env.readdirErr with
    | some e => (env.files, "Error clearing logs: " ++ e)
    | none =>
      match clearDelete env.unlinkErr env.files with
      | (surv, c, none) => (surv, "Successfully deleted " ++ toString c ++ " log files")
      | (surv, _, some e) => (surv, "Error clearing logs: " ++ e)
  else (env.files, "Operation cancelled")

/- DEFS-END -/

/- ===================== Lemmas and theorems ===================== -/

theorem allRedJson_of_not_object (j : Json) (h : isObjectJson j = false) :
    allRedJson j = true := by
  cases j <;> simp_all [isObjectJson, allRedJson]

theorem noSensJson_of_not_object (j : Json) (h : isObjectJson j = false) :
    noSensJson j = true := by
  cases j <;> simp_all [isObjectJson, noSensJson]

mutual

theorem deepCopy_id : ∀ j : Json, deepCopy j = j
  | .null => rfl
  | .bool _ => rfl
  | .num _ => rfl
  | .str _ => rfl
  | .arr xs => by rw [deepCopy, deepCopyList_id xs]
  | .obj kvs => by rw [deepCopy, deepCopyKvs_id kvs]

theorem deepCopyList_id : ∀ xs : JsonList, deepCopyList xs = xs
  | .nil => rfl
  | .cons x xs => by rw [deepCopyList, deepCopy_id x, deepCopyList_id xs]

theorem deepCopyKvs_id : ∀ kvs : JsonKvs, deepCopyKvs kvs = kvs
  | .nil => rfl
  | .cons k v rest => by rw [deepCopyKvs, deepCopy_id v, deepCopyKvs_id rest]

end

mutual

theorem allRed_sanitize : ∀ j : Json, allRedJson (sanitizeObject j) = true
  | .null => rfl
  | .bool _ => rfl
  | .num _ => rfl
  | .str _ => rfl
  | .arr xs => by
    simp only [sanitizeObject, allRedJson]
    exact allRed_sanitizeList xs
  | .obj kvs => by
    simp only [sanitizeObject, allRedJson]
    exact allRed_sanitizeKvs kvs

theorem allRed_sanitizeList : ∀ xs : JsonList, allRedList (sanitizeObjectList xs) = true
  | .nil => rfl
  | .cons x xs => by
    simp only [sanitizeObjectList, allRedList, Bool.and_eq_true]
    refine ⟨?_, allRed_sanitizeList xs⟩
    cases hx : isObjectJson x with
    | true => simpa [hx] using allRed_sanitize x
    | false => simpa [hx] using allRedJson_of_not_object x hx

theorem allRed_sanitizeKvs : ∀ kvs : JsonKvs, allRedKvs (sanitizeObjectKvs kvs) = true
  | .nil => rfl
  | .cons k v rest => by
    cases hk : sensitiveKey k with
    | true =>
      simp only [sanitizeObjectKvs, hk, if_true, allRedKvs, Bool.and_eq_true]
      exact ⟨by simp [isMarker], allRed_sanitizeKvs rest⟩
    | false =>
      simp only [sanitizeObjectKvs, hk, Bool.false_eq_true, if_false, allRedKvs,
        Bool.and_eq_true]
      refine ⟨?_, allRed_sanitizeKvs rest⟩
      cases hv : isObjectJson v with
      | true => simpa [hv] using allRed_sanitize v
      | false => simpa [hv] using allRedJson_of_not_object v hv

end

mutual

theorem noSens_sanitize : ∀ j : Json, noSensJson j = true → sanitizeObject j = j
  | .null, _ => rfl
  | .bool _, _ => rfl
  | .num _, _ => rfl
  | .str _, _ => rfl
  | .arr xs, h => by
    simp only [noSensJson] at h
    simp only [sanitizeObject]
    rw [noSens_sanitizeList xs h]
  | .obj kvs, h => by
    simp only [noSensJson] at h
    simp only [sanitizeObject]
    rw [noSens_sanitizeKvs kvs h]

theorem noSens_sanitizeList : ∀ xs : JsonList, noSensList xs = true → sanitizeObjectList xs = xs
  | .nil, _ => rfl
  | .cons x xs, h => by
    simp only [noSensList, Bool.and_eq_true] at h
    simp only [sanitizeObjectList]
    rw [noSens_sanitize x h.1, noSens_sanitizeList xs h.2, ite_self]

theorem noSens_sanitizeKvs : ∀ kvs : JsonKvs, noSensKvs kvs = true → sanitizeObjectKvs kvs = kvs
  | .nil, _ => rfl
  | .cons k v rest, h => by
    simp only [noSensKvs, Bool.and_eq_true] at h
    obtain ⟨⟨hk, hv⟩, hr⟩ := h
    have hk' : sensitiveKey k = false := by simpa using hk
    simp only [sanitizeObjectKvs, hk', Bool.false_eq_true, if_false]
    rw [noSens_sanitize v hv, noSens_sanitizeKvs rest hr, ite_self]

end

theorem keysOf_sanitizeKvs : ∀ kvs : JsonKvs, keysOf (sanitizeObjectKvs kvs) = keysOf kvs
  | .nil => rfl
  | .cons k v rest => by
    cases hk : sensitiveKey k with
    | true => simp only [sanitizeObjectKvs, hk, if_true, keysOf, keysOf_sanitizeKvs rest]
    | false =>
      simp only [sanitizeObjectKvs, hk, Bool.false_eq_true, if_false, keysOf,
        keysOf_sanitizeKvs rest]

/-- C1: for every JSON-serializable input, `sanitizeData` returns a deep
copy in which every object key from the sensitive set (`api_key`, `apiKey`,
`authorization`, `Authorization`, `token`, `password`, `key`, exact and
case-sensitive) at any nesting depth reachable through object/array
traversal holds the fixed marker `***REDACTED***` (first conjunct, with
non-sensitive fields recursively sanitized), while any value containing no
sensitive key — in particular any sibling subtree free of sensitive keys —
is kept exactly as copied (second conjunct), object keys and their order
are preserved (third conjunct), and the JSON round-trip copy is faithful
on serializable values (fourth conjunct). -/
theorem claim_C1 :
    (∀ d : Json, allRedJson (sanitizeData d) = true)
    ∧ (∀ d : Json, noSensJson d = true → sanitizeData d = d)
    ∧ (∀ kvs : JsonKvs, keysOf (sanitizeObjectKvs kvs) = keysOf kvs)
    ∧ (∀ d : Json, deepCopy d = d) := by
  refine ⟨?_, ?_, keysOf_sanitizeKvs, deepCopy_id⟩
  · intro d
    by_cases h : jsFalsy d = true
    · simp only [sanitizeData, h, if_true]
      cases d with
      | null => rfl
      | bool b => rfl
      | num n => rfl
      | str s => rfl
      | arr xs => exact absurd h (by simp [jsFalsy])
      | obj kvs => exact absurd h (by simp [jsFalsy])
    · simp only [sanitizeData, h, if_false]
      exact allRed_sanitize (deepCopy d)
  · intro d hd
    by_cases h : jsFalsy d = true
    · simp only [sanitizeData, h, if_true]
    · simp only [sanitizeData, h, if_false, deepCopy_id d]
      exact noSens_sanitize d hd

/-- Witness for C1 at concrete inputs: an object with a sensitive key
(`password`) next to a sibling (`user`) is fully redacted at the sensitive
key, and a value with no sensitive keys passes through unchanged. -/
theorem claim_C1_witness :
    allRedJson (sanitizeData
      (Json.obj (.cons "password" (.str "hunter2") (.cons "user" (.str "bob") .nil)))) = true
    ∧ noSensJson (Json.obj (.cons "user" (.str "bob") .nil)) = true
    ∧ sanitizeData (Json.obj (.cons "user" (.str "bob") .nil))
        = Json.obj (.cons "user" (.str "bob") .nil) :=
  ⟨claim_C1.1 _, by decide, claim_C1.2.1 _ (by decide)⟩

/- ===================== Heap lemmas ===================== -/

theorem heapGet_lt_length : ∀ (h : Heap) (a : Nat) (nd : Node),
    heapGet h a = some nd → a < h.length
  | [], _, _, hg => by simp [heapGet] at hg
  | _ :: _, 0, _, _ => by simp
  | _ :: t, a + 1, nd, hg => by
    have := heapGet_lt_length t a nd hg
    simp only [List.length_cons]
    omega

theorem heapGet_ge_none : ∀ (h : Heap) (a : Nat), h.length ≤ a → heapGet h a = none
  | [], _, _ => rfl
  | _ :: _, 0, hle => by simp at hle
  | _ :: t, a + 1, hle => by
    simp only [List.length_cons] at hle
    exact heapGet_ge_none t a (by omega)

theorem heapGet_append_lt : ∀ (h ext : Heap) (a : Nat), a < h.length →
    heapGet (h ++ ext) a = heapGet h a
  | [], _, _, ha => by simp at ha
  | _ :: _, _, 0, _ => rfl
  | _ :: t, ext, a + 1, ha => by
    simp only [List.length_cons] at ha
    exact heapGet_append_lt t ext a (by omega)

theorem heapGet_append_self : ∀ (h : Heap) (nd : Node),
    heapGet (h ++ [nd]) h.length = some nd
  | [], _ => rfl
  | _ :: t, nd => heapGet_append_self t nd

theorem heapGet_heapSet_ne : ∀ (h : Heap) (a b : Nat) (nd : Node), a ≠ b →
    heapGet (heapSet h a nd) b = heapGet h b
  | [], _, _, _, _ => rfl
  | _ :: _, 0, 0, _, hne => absurd rfl hne
  | _ :: _, 0, _ + 1, _, _ => rfl
  | _ :: _, _ + 1, 0, _, _ => rfl
  | _ :: t, a + 1, b + 1, nd, hne =>
    heapGet_heapSet_ne t a b nd (fun e => hne (by omega))

theorem heapGet_heapSet_cases : ∀ (h : Heap) (a : Nat) (nd : Node) (c : Nat) (nd' : Node),
    heapGet (heapSet h a nd) c = some nd' → (c = a ∧ nd' = nd) ∨ heapGet h c = some nd'
  | [], _, _, _, _, hg => Or.inr hg
  | _ :: _, 0, _, 0, _, hg => Or.inl ⟨rfl, by cases hg; rfl⟩
  | _ :: _, 0, _, _ + 1, _, hg => Or.inr hg
  | _ :: _, _ + 1, _, 0, _, hg => Or.inr hg
  | _ :: t, a + 1, nd, c + 1, nd', hg => by
    rcases heapGet_heapSet_cases t a nd c nd' hg with ⟨e1, e2⟩ | hOld
    · exact Or.inl ⟨by omega, e2⟩
    · exact Or.inr hOld

theorem valGE_mono {m n : Nat} (hmn : m ≤ n) : ∀ v : Val, valGE n v → valGE m v
  | .prim _, _ => trivial
  | .ref _, hv => le_trans hmn hv

theorem nodeGE_mono {m n : Nat} (hmn : m ≤ n) : ∀ nd : Node, nodeGE n nd → nodeGE m nd
  | .nObj _, hnd => fun kv hkv => valGE_mono hmn kv.2 (hnd kv hkv)
  | .nArr _, hnd => fun v hv => valGE_mono hmn v (hnd v hv)

theorem lookupField_GE {n : Nat} : ∀ (fields : List (String × Val)) (k : String) (v : Val),
    (∀ kv ∈ fields, valGE n kv.2) → lookupField fields k = some v → valGE n v
  | [], _, _, _, hl => by simp [lookupField] at hl
  | (k', v') :: rest, k, v, hGE, hl => by
    by_cases he : (k' == k) = true
    · simp only [lookupField, he, if_true] at hl
      cases hl
      exact hGE (k', v') (List.mem_cons_self _ _)
    · simp only [lookupField, he, Bool.false_eq_true, if_false] at hl
      exact lookupField_GE rest k v (fun kv hkv => hGE kv (List.mem_cons_of_mem _ hkv)) hl

theorem setFieldList_GE {n : Nat} : ∀ (fields : List (String × Val)) (k : String) (p : Prim),
    (∀ kv ∈ fields, valGE n kv.2) →
    ∀ kv ∈ setFieldList fields k (.prim p), valGE n kv.2
  | [], _, _, _, kv, hkv => by simp [setFieldList] at hkv
  | (k', v') :: rest, k, p, hGE, kv, hkv => by
    by_cases he : (k' == k) = true
    · simp only [setFieldList, he, if_true, List.mem_cons] at hkv
      rcases hkv with rfl | hkv
      · trivial
      · exact setFieldList_GE rest k p (fun kv hkv => hGE kv (List.mem_cons_of_mem _ hkv)) kv hkv
    · simp only [setFieldList, he, Bool.false_eq_true, if_false, List.mem_cons] at hkv
      rcases hkv with rfl | hkv
      · exact hGE (k', v') (List.mem_cons_self _ _)
      · exact setFieldList_GE rest k p (fun kv hkv => hGE kv (List.mem_cons_of_mem _ hkv)) kv hkv

theorem setField_pres (h : Heap) (a : Nat) (k : String) (v : Val) (b : Nat) (hb : a ≠ b) :
    heapGet (setField h a k v) b = heapGet h b := by
  unfold setField
  cases heapGet h a with
  | none => rfl
  | some nd =>
    cases nd with
    | nObj fields => exact heapGet_heapSet_ne h a b _ hb
    | nArr _ => rfl

theorem setField_inv (h : Heap) (a : Nat) (k : String) (p : Prim) (n : Nat) (hna : n ≤ a)
    (hinv : heapGEfrom n h) : heapGEfrom n (setField h a k (.prim p)) := by
  intro c nd hc hg
  unfold setField at hg
  cases hG : heapGet h a with
  | none => rw [hG] at hg; exact hinv c nd hc hg
  | some nd0 =>
    cases nd0 with
    | nArr _ => rw [hG] at hg; exact hinv c nd hc hg
    | nObj fields =>
      rw [hG] at hg
      rcases heapGet_heapSet_cases h a _ c nd hg with ⟨rfl, rfl⟩ | hOld
      · have hGEf : nodeGE n (Node.nObj fields) := hinv c _ hc hG
        exact setFieldList_GE fields k p hGEf
      · exact hinv c nd hc hOld

theorem getField_GE {h : Heap} {a : Nat} {k : String} {v : Val} {n : Nat}
    (hinv : heapGEfrom n h) (hna : n ≤ a) (hg : getField h a k = some v) : valGE n v := by
  unfold getField at hg
  cases hG : heapGet h a with
  | none => rw [hG] at hg; cases hg
  | some nd =>
    rw [hG] at hg
    cases nd with
    | nArr _ => cases hg
    | nObj fields =>
      have hnode : nodeGE n (Node.nObj fields) := hinv a _ hna hG
      exact lookupField_GE fields k v hnode hg

/- ===================== Allocation specification ===================== -/

mutual

theorem allocVal_spec : ∀ (h : Heap) (t : Json) (h' : Heap) (v : Val), allocVal h t = (h', v) →
    h.length ≤ h'.length
    ∧ (∀ a, a < h.length → heapGet h' a = heapGet h a)
    ∧ valGE h.length v
    ∧ (∀ a nd, h.length ≤ a → heapGet h' a = some nd → nodeGE h.length nd)
  | h, .null, h', v, hEq => by
    cases hEq
    refine ⟨le_refl _, fun a _ => rfl, trivial, fun a nd ha hg => ?_⟩
    exact absurd (heapGet_lt_length h a nd hg) (by omega)
  | h, .bool b, h', v, hEq => by
    cases hEq
    refine ⟨le_refl _, fun a _ => rfl, trivial, fun a nd ha hg => ?_⟩
    exact absurd (heapGet_lt_length h a nd hg) (by omega)
  | h, .num n, h', v, hEq => by
    cases hEq
    refine ⟨le_refl _, fun a _ => rfl, trivial, fun a nd ha hg => ?_⟩
    exact absurd (heapGet_lt_length h a nd hg) (by omega)
  | h, .str s, h', v, hEq => by
    cases hEq
    refine ⟨le_refl _, fun a _ => rfl, trivial, fun a nd ha hg => ?_⟩
    exact absurd (heapGet_lt_length h a nd hg) (by omega)
  | h, .arr xs, h', v, hEq => by
    rcases hA : allocElems h xs with ⟨h1, vs⟩
    simp only [allocVal, hA] at hEq
    cases hEq
    obtain ⟨l1, p1, g1, n1⟩ := allocElems_spec h xs h1 vs hA
    refine ⟨?_, ?_, ?_, ?_⟩
    · simp only [List.length_append, List.length_cons, List.length_nil]
      omega
    · intro a ha
      rw [heapGet_append_lt _ _ _ (lt_of_lt_of_le ha l1), p1 a ha]
    · exact l1
    · intro a nd ha hg
      by_cases hlt : a < h1.length
      · rw [heapGet_append_lt _ _ _ hlt] at hg
        exact n1 a nd ha hg
      · have hub : a < (h1 ++ [Node.nArr vs]).length := heapGet_lt_length _ _ _ hg
        simp only [List.length_append, List.length_cons, List.length_nil] at hub
        have hEqa : a = h1.length := by omega
        subst hEqa
        rw [heapGet_append_self] at hg
        cases hg
        exact g1
  | h, .obj kvs, h', v, hEq => by
    rcases hA : allocFields h kvs with ⟨h1, fvs⟩
    simp only [allocVal, hA] at hEq
    cases hEq
    obtain ⟨l1, p1, g1, n1⟩ := allocFields_spec h kvs h1 fvs hA
    refine ⟨?_, ?_, ?_, ?_⟩
    · simp only [List.length_append, List.length_cons, List.length_nil]
      omega
    · intro a ha
      rw [heapGet_append_lt _ _ _ (lt_of_lt_of_le ha l1), p1 a ha]
    · exact l1
    · intro a nd ha hg
      by_cases hlt : a < h1.length
      · rw [heapGet_append_lt _ _ _ hlt] at hg
        exact n1 a nd ha hg
      · have hub : a < (h1 ++ [Node.nObj fvs]).length := heapGet_lt_length _ _ _ hg
        simp only [List.length_append, List.length_cons, List.length_nil] at hub
        have hEqa : a = h1.length := by omega
        subst hEqa
        rw [heapGet_append_self] at hg
        cases hg
        exact g1

theorem allocElems_spec : ∀ (h : Heap) (xs : JsonList) (h' : Heap) (vs : List Val),
    allocElems h xs = (h', vs) →
    h.length ≤ h'.length
    ∧ (∀ a, a < h.length → heapGet h' a = heapGet h a)
    ∧ (∀ w ∈ vs, valGE h.length w)
    ∧ (∀ a nd, h.length ≤ a → heapGet h' a = some nd → nodeGE h.length nd)
  | h, .nil, h', vs, hEq => by
    cases hEq
    refine ⟨le_refl _, fun a _ => rfl, by simp, fun a nd ha hg => ?_⟩
    exact absurd (heapGet_lt_length h a nd hg) (by omega)
  | h, .cons x xs, h', vs, hEq => by
    rcases hA : allocVal h x with ⟨h1, v⟩
    rcases hB : allocElems h1 xs with ⟨h2, vs2⟩
    simp only [allocElems, hA, hB] at hEq
    cases hEq
    obtain ⟨l1, p1, g1, n1⟩ := allocVal_spec h x h1 v hA
    obtain ⟨l2, p2, g2, n2⟩ := allocElems_spec h1 xs _ _ hB
    refine ⟨le_trans l1 l2, ?_, ?_, ?_⟩
    · intro a ha
      rw [p2 a (lt_of_lt_of_le ha l1), p1 a ha]
    · intro w hw
      rcases List.mem_cons.mp hw with rfl | hw
      · exact g1
      · exact valGE_mono l1 w (g2 w hw)
    · intro a nd ha hg
      by_cases hlt : a < h1.length
      · rw [p2 a hlt] at hg
        exact n1 a nd ha hg
      · push_neg at hlt
        exact nodeGE_mono l1 nd (n2 a nd hlt hg)

theorem allocFields_spec : ∀ (h : Heap) (kvs : JsonKvs) (h' : Heap) (fvs : List (String × Val)),
    allocFields h kvs = (h', fvs) →
    h.length ≤ h'.length
    ∧ (∀ a, a < h.length → heapGet h' a = heapGet h a)
    ∧ (∀ kv ∈ fvs, valGE h.length kv.2)
    ∧ (∀ a nd, h.length ≤ a → heapGet h' a = some nd → nodeGE h.length nd)
  | h, .nil, h', fvs, hEq => by
    cases hEq
    refine ⟨le_refl _, fun a _ => rfl, by simp, fun a nd ha hg => ?_⟩
    exact absurd (heapGet_lt_length h a nd hg) (by omega)
  | h, .cons k x rest, h', fvs, hEq => by
    rcases hA : allocVal h x with ⟨h1, v⟩
    rcases hB : allocFields h1 rest with ⟨h2, fvs2⟩
    simp only [allocFields, hA, hB] at hEq
    cases hEq
    obtain ⟨l1, p1, g1, n1⟩ := allocVal_spec h x h1 v hA
    obtain ⟨l2, p2, g2, n2⟩ := allocFields_spec h1 rest _ _ hB
    refine ⟨le_trans l1 l2, ?_, ?_, ?_⟩
    · intro a ha
      rw [p2 a (lt_of_lt_of_le ha l1), p1 a ha]
    · intro kv hkv
      rcases List.mem_cons.mp hkv with rfl | hkv
      · exact g1
      · exact valGE_mono l1 kv.2 (g2 kv hkv)
    · intro a nd ha hg
      by_cases hlt : a < h1.length
      · rw [p2 a hlt] at hg
        exact n1 a nd ha hg
      · push_neg at hlt
        exact nodeGE_mono l1 nd (n2 a nd hlt hg)

end

/- ===================== Sanitizer frame specification ===================== -/

mutual

theorem sanitizeValHeap_frame : ∀ (fuel : Nat) (h : Heap) (v : Val) (n : Nat),
    valGE n v → heapGEfrom n h →
    (∀ b, b < n → heapGet (sanitizeValHeap fuel h v) b = heapGet h b)
    ∧ heapGEfrom n (sanitizeValHeap fuel h v)
  | 0, h, v, _, _, hinv => by
    have he : sanitizeValHeap 0 h v = h := by simp [sanitizeValHeap]
    rw [he]
    exact ⟨fun _ _ => rfl, hinv⟩
  | fuel + 1, h, .prim p, _, _, hinv => by
    have he : sanitizeValHeap (fuel + 1) h (.prim p) = h := by simp [sanitizeValHeap]
    rw [he]
    exact ⟨fun _ _ => rfl, hinv⟩
  | fuel + 1, h, .ref a, n, hv, hinv => by
    have hna : n ≤ a := hv
    simp only [sanitizeValHeap]
    cases hG : heapGet h a with
    | none => exact ⟨fun _ _ => rfl, hinv⟩
    | some nd =>
      cases nd with
      | nObj fields =>
        exact sanFieldsHeap_frame fuel h a (fields.map Prod.fst) n hna hinv
      | nArr elems =>
        have hnode : nodeGE n (Node.nArr elems) := hinv a _ hna hG
        exact sanElemsHeap_frame fuel h elems n hnode hinv
termination_by fuel _ _ _ => (fuel, 0)

theorem sanFieldsHeap_frame : ∀ (fuel : Nat) (h : Heap) (a : Nat) (ks : List String) (n : Nat),
    n ≤ a → heapGEfrom n h →
    (∀ b, b < n → heapGet (sanFieldsHeap fuel h a ks) b = heapGet h b)
    ∧ heapGEfrom n (sanFieldsHeap fuel h a ks)
  | fuel, h, a, [], _, _, hinv => by
    have he : sanFieldsHeap fuel h a [] = h := by simp [sanFieldsHeap]
    rw [he]
    exact ⟨fun _ _ => rfl, hinv⟩
  | fuel, h, a, k :: rest, n, hna, hinv => by
    simp only [sanFieldsHeap]
    by_cases hk : sensitiveKey k = true
    · simp only [hk, if_true]
      have hinv2 := setField_inv h a k (.pstr redactionMarker) n hna hinv
      obtain ⟨p2, i2⟩ := sanFieldsHeap_frame fuel _ a rest n hna hinv2
      refine ⟨fun b hb => ?_, i2⟩
      rw [p2 b hb, setField_pres h a k _ b (by omega)]
    · simp only [hk, if_false]
      cases hGF : getField h a k with
      | none => exact sanFieldsHeap_frame fuel h a rest n hna hinv
      | some v =>
        by_cases ho : isObjRefV v = true
        · simp only [ho, if_true]
          have hvGE : valGE n v := getField_GE hinv hna hGF
          obtain ⟨p1, i1⟩ := sanitizeValHeap_frame fuel h v n hvGE hinv
          obtain ⟨p2, i2⟩ := sanFieldsHeap_frame fuel _ a rest n hna i1
          exact ⟨fun b hb => (p2 b hb).trans (p1 b hb), i2⟩
        · simp only [ho, if_false]
          exact sanFieldsHeap_frame fuel h a rest n hna hinv
termination_by fuel _ _ ks _ => (fuel, ks.length + 1)

theorem sanElemsHeap_frame : ∀ (fuel : Nat) (h : Heap) (vs : List Val) (n : Nat),
    (∀ v ∈ vs, valGE n v) → heapGEfrom n h →
    (∀ b, b < n → heapGet (sanElemsHeap fuel h vs) b = heapGet h b)
    ∧ heapGEfrom n (sanElemsHeap fuel h vs)
  | fuel, h, [], _, _, hinv => by
    have he : sanElemsHeap fuel h [] = h := by simp [sanElemsHeap]
    rw [he]
    exact ⟨fun _ _ => rfl, hinv⟩
  | fuel, h, v :: rest, n, hvs, hinv => by
    simp only [sanElemsHeap]
    by_cases ho : isObjRefV v = true
    · simp only [ho, if_true]
      have hvGE : valGE n v := hvs v (List.mem_cons_self _ _)
      obtain ⟨p1, i1⟩ := sanitizeValHeap_frame fuel h v n hvGE hinv
      obtain ⟨p2, i2⟩ :=
        sanElemsHeap_frame fuel _ rest n (fun w hw => hvs w (List.mem_cons_of_mem _ hw)) i1
      exact ⟨fun b hb => (p2 b hb).trans (p1 b hb), i2⟩
    · simp only [ho, if_false]
      exact sanElemsHeap_frame fuel h rest n (fun w hw => hvs w (List.mem_cons_of_mem _ hw)) hinv
termination_by fuel _ vs _ => (fuel, vs.length + 1)

end

/-- C9: `sanitizeData` never mutates its argument.  Redaction is applied
only to the freshly allocated JSON round-trip copy, so after the call
every address of the pre-existing heap — in particular every node of the
input structure, its sensitive values included — holds exactly what it
held before the call, for every input (defined, undefined, falsy, cyclic
or serializable). -/
theorem claim_C9 : ∀ (h : Heap) (data : Option Val) (a : Nat), a < h.length →
    heapGet (sanitizeDataHeap h data).1 a = heapGet h a := by
  intro h data a ha
  match data with
  | none => rfl
  | some v =>
    by_cases hf : jsFalsyV v = true
    · simp [sanitizeDataHeap, hf]
    · simp only [sanitizeDataHeap, Bool.not_eq_true] at *
      rw [if_neg (by simp [hf])]
      cases hS : stringifyHeap h v with
      | none =>
        by_cases ht : typeofObjectV v = true
        · rw [if_pos ht]
          exact heapGet_append_lt h [placeholderNode] a ha
        · rw [if_neg ht]
      | some t =>
        rcases hA : allocVal h t with ⟨h1, copy⟩
        obtain ⟨l1, p1, g1, n1⟩ := allocVal_spec h t h1 copy hA
        have hinv : heapGEfrom h.length h1 := fun c nd hc hg => n1 c nd hc hg
        obtain ⟨pf, _⟩ := sanitizeValHeap_frame (h1.length + 1) h1 copy h.length g1 hinv
        simp only [hA]
        calc heapGet (sanitizeValHeap (h1.length + 1) h1 copy) a
            = heapGet h1 a := pf a ha
          _ = heapGet h a := p1 a ha

/-- Witness for C9: a one-node heap holding an object with a raw
`password` field, passed to the sanitizer by reference; after the call the
original node is untouched (the raw value is still reachable through the
original reference). -/
theorem claim_C9_witness :
    0 < ([Node.nObj [("password", Val.prim (.pstr "hunter2"))]] : Heap).length
    ∧ heapGet (sanitizeDataHeap [Node.nObj [("password", Val.prim (.pstr "hunter2"))]]
        (some (.ref 0))).1 0
      = heapGet [Node.nObj [("password", Val.prim (.pstr "hunter2"))]] 0 :=
  ⟨by decide, claim_C9 _ _ 0 (by decide)⟩

/-- C7: `sanitizeData(undefined)` returns `undefined` without error (first
conjunct, with the heap untouched), and on any input whose JSON
serialization fails (a reachable cycle) it does not raise: it returns the
structured placeholder object with single field `sanitized` holding
`[Object could not be safely sanitized]` when the input is object-typed,
and returns the input value unchanged when it is not object-typed (second
conjunct; the third conjunct exhibits the placeholder node in the
object-typed case). -/
theorem claim_C7 :
    (∀ h : Heap, sanitizeDataHeap h none = (h, none))
    ∧ (∀ (h : Heap) (v : Val), stringifyHeap h v = none →
        sanitizeDataHeap h (some v) =
          (if typeofObjectV v then (h ++ [placeholderNode], some (.ref h.length))
           else (h, some v))
        ∧ heapGet (sanitizeDataHeap h (some v)).1 h.length
            = (if typeofObjectV v then some placeholderNode else none)) := by
  constructor
  · intro h
    rfl
  · intro h v hS
    cases v with
    | prim p =>
      exfalso
      cases p <;> simp [stringifyHeap, readVal] at hS
    | ref a =>
      have hE : sanitizeDataHeap h (some (Val.ref a))
          = (h ++ [placeholderNode], some (.ref h.length)) := by
        simp [sanitizeDataHeap, jsFalsyV, hS, typeofObjectV]
      refine ⟨?_, ?_⟩
      · rw [hE]
        simp [typeofObjectV]
      · rw [hE]
        simp only [typeofObjectV, if_true]
        exact heapGet_append_self h placeholderNode

/-- Witness for C7: the one-node heap whose object references itself is
circular, so serialization fails; the sanitizer returns the placeholder
reference without raising, and `undefined` passes through on the empty
heap. -/
theorem claim_C7_witness :
    sanitizeDataHeap [] none = ([], none)
    ∧ stringifyHeap [Node.nObj [("self", Val.ref 0)]] (.ref 0) = none
    ∧ sanitizeDataHeap [Node.nObj [("self", Val.ref 0)]] (some (.ref 0)) =
        ([Node.nObj [("self", Val.ref 0)], placeholderNode], some (.ref 1)) :=
  ⟨claim_C7.1 [], rfl, by
    have h2 := (claim_C7.2 [Node.nObj [("self", Val.ref 0)]] (.ref 0) rfl).1
    simpa using h2⟩

/-- C5: service classification is a pure function of the URL's hostname
through the fixed substring chain, first match winning: the four concrete
examples of the claim evaluate as stated, a hostname containing
`anthropic.com` is classified `anthropic` no matter what else it contains,
and a hostname matching both the early `claude` pattern and the later
`vertex-ai` pattern is classified by the earlier rule. -/
theorem claim_C5 :
    getServiceFromUrl "https://api.anthropic.com/v1/x" = some "anthropic"
    ∧ getServiceFromUrl "https://api.openai.com/v1/x" = some "openai"
    ∧ getServiceFromUrl "https://s3.amazonaws.com/bucket" = some "aws"
    ∧ getServiceFromUrl "https://example.com" = some "unknown"
    ∧ (∀ hst : String, jsIncludes hst "anthropic.com" = true →
        getServiceFromHostname hst = "anthropic")
    ∧ (∀ hst : String, jsIncludes hst "claude" = true → jsIncludes hst "vertex-ai" = true →
        getServiceFromHostname hst = "anthropic") := by
  refine ⟨by decide, by decide, by decide, by decide, ?_, ?_⟩
  · intro hst h
    simp [getServiceFromHostname, h]
  · intro hst h1 _
    simp [getServiceFromHostname, h1]

/-- Witness for C5: a hostname containing both `claude` and `vertex-ai` is
classified `anthropic` because the `claude` rule is checked first. -/
theorem claim_C5_witness :
    jsIncludes "claude-vertex-ai.test" "claude" = true
    ∧ jsIncludes "claude-vertex-ai.test" "vertex-ai" = true
    ∧ getServiceFromHostname "claude-vertex-ai.test" = "anthropic" :=
  ⟨by decide, by decide,
    claim_C5.2.2.2.2.2 "claude-vertex-ai.test" (by decide) (by decide)⟩

/-- C3: `logApiCall` never raises to its caller: for every combination of
platform failures (directory creation while computing the log path, entry
serialization, file append) it returns a plain outcome; when any step
fails, the failure is reported only through the `console.error`
side-channel, nothing is appended, and — when every step succeeds — the
serialized entry line plus newline is appended with no diagnostic. -/
theorem claim_C3 : ∀ (env : FsEnv) (stringify : Json → String) (ts uuid : String)
    (a : LogApiArgs),
    ((∃ line, logApiCall env stringify ts uuid a = ⟨some line, none⟩)
      ∨ (∃ e, logApiCall env stringify ts uuid a = ⟨none, some e⟩))
    ∧ (∀ e, env.dirExists = false → env.mkdirErr = some e →
        logApiCall env stringify ts uuid a = ⟨none, some e⟩)
    ∧ (∀ e, env.dirExists = true → env.stringifyErr = some e →
        logApiCall env stringify ts uuid a = ⟨none, some e⟩)
    ∧ (∀ e, env.dirExists = true → env.stringifyErr = none → env.appendErr = some e →
        logApiCall env stringify ts uuid a = ⟨none, some e⟩)
    ∧ (env.dirExists = true → env.stringifyErr = none → env.appendErr = none →
        logApiCall env stringify ts uuid a
          = ⟨some (stringify (entryToJson (mkLogEntry ts uuid a)) ++ "\n"), none⟩) := by
  intro env stringify ts uuid a
  refine ⟨?_, ?_, ?_, ?_, ?_⟩
  · cases hT : logApiCallTry env stringify ts uuid a with
    | ok line => exact Or.inl ⟨line, by simp [logApiCall, hT]⟩
    | error e => exact Or.inr ⟨e, by simp [logApiCall, hT]⟩
  · intro e h1 h2
    simp [logApiCall, logApiCallTry, h1, h2]
  · intro e h1 h2
    simp [logApiCall, logApiCallTry, h1, h2]
  · intro e h1 h2 h3
    simp [logApiCall, logApiCallTry, h1, h2, h3]
  · intro h1 h2 h3
    simp [logApiCall, logApiCallTry, h1, h2, h3]

/-- Witness for C3: with a missing directory and a failing `mkdirSync` the
call returns the diagnostic-only outcome; with a healthy platform it
returns the appended line; in neither case does anything escape. -/
theorem claim_C3_witness :
    logApiCall ⟨false, some "EACCES", none, none⟩ (fun _ => "x") "t" "i"
        ⟨.str "https://api.anthropic.com/v1/x", .str "POST", none, none, none, none, none,
          none, 5, "anthropic"⟩
      = ⟨none, some "EACCES"⟩
    ∧ logApiCall ⟨true, none, none, none⟩ (fun _ => "x") "t" "i"
        ⟨.str "https://api.anthropic.com/v1/x", .str "POST", none, none, none, none, none,
          none, 5, "anthropic"⟩
      = ⟨some "x\n", none⟩ := by
  constructor
  · exact (claim_C3 _ _ _ _ _).2.1 "EACCES" rfl rfl
  · have h := (claim_C3 ⟨true, none, none, none⟩ (fun _ => "x") "t" "i"
      ⟨.str "https://api.anthropic.com/v1/x", .str "POST", none, none, none, none, none,
        none, 5, "anthropic"⟩).2.2.2.2 rfl rfl rfl
    simpa using h

/-- C2 (amended): when the underlying call throws — through the global
fetch interceptor or through `withApiLogging` — the identical thrown value
is re-thrown unchanged, and exactly one log entry is produced for the
invocation, with no `statusCode` and no `responseBody`, and with its
`error` field populated whenever the thrown value is truthy (for a falsy
thrown value the field is left `undefined`, see the counterexample). -/
theorem claim_C2 : ∀ (parse : String → Option Json) (req : FetchReq) (e : Thrown)
    (ts uuid : String) (d : Int) (serviceName : String) (args : List JSArg),
    (loggedFetch parse req (.error e) ts uuid d).1 = .error e
    ∧ (loggedFetch parse req (.error e) ts uuid d).2.map
        (fun en => (en.statusCode, en.responseBody, en.error))
      = [(none, none, if truthyThrown e then some (thrownToJson e) else none)]
    ∧ (withApiLogging serviceName args (.error e) ts uuid d).1 = .error e
    ∧ (withApiLogging serviceName args (.error e) ts uuid d).2.map
        (fun en => (en.statusCode, en.responseBody, en.error))
      = [(none, none, if truthyThrown e then some (thrownToJson e) else none)] :=
  fun _ _ _ _ _ _ _ _ => ⟨rfl, rfl, rfl, rfl⟩

/-- Counterexample to C2 as stated: a wrapped call that throws the legal
JavaScript value `false` re-throws it and produces exactly one entry, but
that entry's `error` field is `undefined` — not populated — because the
entry construction guards on the thrown value's truthiness
(`error ? ... : undefined`, apiLogger.ts line 111). -/
theorem claim_C2_cex :
    (withApiLogging "svc" [] (.error (Thrown.value (some (.bool false)))) "t" "i" 1).1
      = .error (Thrown.value (some (.bool false)))
    ∧ (withApiLogging "svc" [] (.error (Thrown.value (some (.bool false)))) "t" "i" 1).2.map
        (fun en => en.error)
      = [none] :=
  ⟨rfl, rfl⟩

/-- C4 (bug evidence): the Log Writer and the formatter disagree on the
entry schema.  `logApiCall` writes `method`, `url`, `headers`, `body`,
`responseBody`, `statusCode` and `durationMs` at the top level, but
`formatAndDisplayLogEntry` reads `entry.request`, `entry.response` and
`entry.responseTime`, which the writer never emits.  First conjunct: a
success entry exactly as written (method POST, URL, headers, bodies,
status 200) renders as only the timestamp and service fragments — no
method, path, headers, bodies or status.  Second conjunct: on the nested
schema the formatter does render method+path and threshold-colored status
(404 renders with warning severity), confirming the per-field rendering
the claim describes — the entries the program writes just never have that
shape. -/
theorem claim_C4 : ∀ ext : FmtExt,
    formatAndDisplayLogEntry ext (entryToJson (mkLogEntry "2024-01-01T00:00:00.000Z" "id-1"
        ⟨.str "https://api.anthropic.com/v1/messages", .str "POST",
          some (.obj (.cons "content-type" (.str "application/json") .nil)),
          some (.obj (.cons "model" (.str "m") .nil)),
          some ⟨200, [("x-h", "v")], some "ok"⟩,
          some (.str "ok"), none, none, 123, "anthropic"⟩))
      = .segs
          [⟨["gray"], "[" ++ ext.toLocale (.str "2024-01-01T00:00:00.000Z") ++ "] "⟩,
           ⟨["bold", "blue"], "anthropic "⟩]
    ∧ formatAndDisplayLogEntry ext
        (.obj (.cons "timestamp" (.str "T") (.cons "service" (.str "s")
          (.cons "request" (.obj (.cons "method" (.str "GET")
            (.cons "url" (.str "https://h.example/v1?q=1") .nil)))
          (.cons "response" (.obj (.cons "status" (.num 404) .nil)) .nil)))))
      = .segs
          [⟨["gray"], "[" ++ ext.toLocale (.str "T") ++ "] "⟩,
           ⟨["bold", "blue"], "s "⟩,
           ⟨["bold", "green"], "GET"⟩,
           ⟨["bold"], " /v1?q=1\n"⟩,
           ⟨["yellow"], "  Response: 404"⟩,
           ⟨[], "\n"⟩] :=
  fun _ => ⟨rfl, rfl⟩

/-- C6: reading a log file back decodes the newline-split, empty-dropped
lines in file order: the decoded sequence has exactly one record per
surviving line (order and count preserved — first conjunct); a line that
the platform parser rejects yields the fallback record `(raw: line)`
carrying the original line verbatim, which the formatter returns verbatim
(second conjunct); a line that parses is returned parsed (third
conjunct). -/
theorem claim_C6 : ∀ (parse : String → Option Json) (content : String) (ext : FmtExt)
    (i : Nat) (l : String),
    ((jsSplitNewline content).filter (fun l => l != "")).get? i = some l →
    (readEntries parse content).length
        = ((jsSplitNewline content).filter (fun l => l != "")).length
    ∧ (parse l = none →
        (readEntries parse content).get? i = some (.obj (.cons "raw" (.str l) .nil))
        ∧ formatAndDisplayLogEntry ext (.obj (.cons "raw" (.str l) .nil)) = .rawOut (.str l))
    ∧ (∀ j, parse l = some j → (readEntries parse content).get? i = some j) := by
  intro parse content ext i l hL
  have hmap : ∀ g : String → Json,
      (((jsSplitNewline content).filter (fun l => l != "")).map g).get? i = some (g l) := by
    intro g
    rw [List.get?_eq_getElem?, List.getElem?_map, ← List.get?_eq_getElem?, hL]
    rfl
  refine ⟨by simp [readEntries], ?_, ?_⟩
  · intro hp
    constructor
    · unfold readEntries
      rw [hmap]
      simp [parseLogLine, hp]
    · have hmem : l ∈ (jsSplitNewline content).filter (fun l => l != "") :=
        List.get?_mem hL
      have hne : (l != "") = true := (List.mem_filter.mp hmem).2
      have hne' : l ≠ "" := by simpa using hne
      simp [formatAndDisplayLogEntry, jget, jget.jgetKvs, truthyOpt, jsFalsy, hne']
  · intro j hp
    unfold readEntries
    rw [hmap]
    simp [parseLogLine, hp]

/-- Witness for C6 on a concrete two-line file with a trailing newline:
the non-JSON first line comes back as the raw record and is rendered
verbatim, the parsing second line comes back parsed, the count matches the
two nonempty lines. -/
theorem claim_C6_witness :
    (((jsSplitNewline "oops\nnull\n").filter (fun l => l != "")).get? 0 = some "oops")
    ∧ (readEntries (fun s => if s == "null" then some .null else none) "oops\nnull\n").length
        = ((jsSplitNewline "oops\nnull\n").filter (fun l => l != "")).length
    ∧ (readEntries (fun s => if s == "null" then some .null else none) "oops\nnull\n").get? 0
        = some (.obj (.cons "raw" (.str "oops") .nil))
    ∧ formatAndDisplayLogEntry ⟨fun _ => "", fun _ => ""⟩
        (.obj (.cons "raw" (.str "oops") .nil)) = .rawOut (.str "oops")
    ∧ (readEntries (fun s => if s == "null" then some .null else none) "oops\nnull\n").get? 1
        = some .null := by
  have h0 := claim_C6 (fun s => if s == "null" then some .null else none) "oops\nnull\n"
    ⟨fun _ => "", fun _ => ""⟩ 0 "oops" (by decide)
  have h1 := claim_C6 (fun s => if s == "null" then some .null else none) "oops\nnull\n"
    ⟨fun _ => "", fun _ => ""⟩ 1 "null" (by decide)
  refine ⟨by decide, h0.1, ?_, ?_, ?_⟩
  · exact (h0.2.1 rfl).1
  · exact (h0.2.1 rfl).2
  · exact h1.2.2 .null rfl

/-- C10: a `tail`/`view` count argument that does not parse as a number
(`parseInt` yields NaN) leads `viewLogFile` to display all entries rather
than failing or clamping: the last-n slice is applied only under
`numLines > 0`, which is false for NaN. -/
theorem claim_C10 : ∀ (s f : String) (logEntries : List Json),
    jsParseInt s = none →
    entriesToShow (tailNumLines [s]) logEntries = logEntries
    ∧ entriesToShow (viewNumLines [f, s]) logEntries = logEntries := by
  intro s f es h
  constructor
  · simp [tailNumLines, entriesToShow, h, jsGtZero]
  · simp [viewNumLines, entriesToShow, h, jsGtZero]

/-- Witness for C10: `parseInt('abc')` is NaN, so `tail abc` and
`view file.jsonl abc` both show every entry. -/
theorem claim_C10_witness :
    jsParseInt "abc" = none
    ∧ entriesToShow (tailNumLines ["abc"]) [Json.null] = [Json.null]
    ∧ entriesToShow (viewNumLines ["file.jsonl", "abc"]) [Json.null] = [Json.null] :=
  ⟨by decide, (claim_C10 "abc" "file.jsonl" [Json.null] (by decide)).1,
    (claim_C10 "abc" "file.jsonl" [Json.null] (by decide)).2⟩

theorem clearDelete_ok (u : String → Option String) (hu : ∀ f, u f = none) :
    ∀ files : List String,
    clearDelete u files
      = (files.filter (fun f => !isLogExt f),
         (files.filter (fun f => isLogExt f)).length, none)
  | [] => by simp [clearDelete]
  | f :: rest => by
    by_cases hf : isLogExt f = true
    · simp [clearDelete, hf, hu f, clearDelete_ok u hu rest, List.filter_cons]
    · simp [clearDelete, hf, clearDelete_ok u hu rest, List.filter_cons]

/-- C8: for every confirmation answer other than `y`/`Y` (exactly the
answers whose lowercasing is not `y`), `clearLogs` deletes nothing — the
directory is left unchanged — and resolves the cancellation message; only
the affirmative answer triggers deletion, which (absent platform errors)
removes exactly the log-extension files and reports their count. -/
theorem claim_C8 : ∀ (answer : String) (env : ClearEnv),
    (lowerAscii answer ≠ "y" → clearLogs answer env = (env.files, "Operation cancelled"))
    ∧ (env.readdirErr = none → (∀ f, env.unlinkErr f = none) →
        clearLogs "y" env
          = (env.files.filter (fun f => !isLogExt f),
             "Successfully deleted "
               ++ toString (env.files.filter (fun f => isLogExt f)).length
               ++ " log files")) := by
  intro answer env
  constructor
  · intro h
    rw [clearLogs, if_neg (by simpa using h)]
  · intro h1 h2
    rw [clearLogs, if_pos (by decide)]
    rw [h1, clearDelete_ok env.unlinkErr h2 env.files]

/-- Witness for C8: a declining answer leaves the two-file directory
untouched with the cancellation message; the affirmative answer deletes
exactly the one `.jsonl` file. -/
theorem claim_C8_witness :
    lowerAscii "n" ≠ "y"
    ∧ clearLogs "n" ⟨["a.jsonl", "keep.txt"], none, fun _ => none⟩
        = (["a.jsonl", "keep.txt"], "Operation cancelled")
    ∧ clearLogs "y" ⟨["a.jsonl", "keep.txt"], none, fun _ => none⟩
        = ((["a.jsonl", "keep.txt"] : List String).filter (fun f => !isLogExt f),
           "Successfully deleted "
             ++ toString ((["a.jsonl", "keep.txt"] : List String).filter
                 (fun f => isLogExt f)).length
             ++ " log files")
    ∧ (["a.jsonl", "keep.txt"] : List String).filter (fun f => !isLogExt f) = ["keep.txt"] :=
  ⟨by decide, (claim_C8 "n" _).1 (by decide), (claim_C8 "y" _).2 rfl (fun _ => rfl),
    by decide⟩
